import Mathlib

/-!
# Verification of the "places to go" scraper

Shallow embedding of the repository's crawl-and-extract pipeline:

* `scrap.py` / `scrap_simple.py` — location regex parser, URL validity filter,
  checkpoint-style data loading;
* `united-airlines-scraper/scraper.py` — URL classifier, link extraction,
  article extraction, checkpointing, aggregation by country;
* `united-airlines-scraper/scraper_webreader.py` — regex variant of link
  extraction and article extraction;
* `united-airlines-scraper/main.py` — crawl orchestrator loop.

Python strings are modelled as `List Char` (all the data handled by the code
is ASCII), Python string methods as structurally recursive functions on
`List Char`, and the regular expressions the code uses as deterministic
scanners (each pattern in the source contains no alternation and only
character-class repetitions bounded by literal separators, so its matching is
deterministic and the scanners below reproduce `re.search` / `re.findall`
leftmost semantics exactly).  External collaborators (the rendering engine,
HTTP, the file system, the JSON codec) are modelled as explicit oracle inputs,
as the spec directs ("treated as external collaborators").
-/

namespace Scrape

/-! ## Python string primitives on `List Char` -/

/-- `listStartsWith p l = true` iff `p` is a prefix of `l`.  Models
`str.startswith` and the anchoring of a regex literal at a position. -/
def listStartsWith : List Char → List Char → Bool
  | [], _ => true
  | _ :: _, [] => false
  | a :: p, b :: l => a == b && listStartsWith p l

/-- `listEndsWith p l = true` iff `p` is a suffix of `l`.  Models
`str.endswith` and `$`-anchored regex searches. -/
def listEndsWith (p l : List Char) : Bool :=
  listStartsWith p.reverse l.reverse

/-- `listHasSub p l = true` iff `p` occurs as a contiguous substring of `l`.
Models Python's `p in l` on strings. -/
def listHasSub (p : List Char) : List Char → Bool
  | [] => listStartsWith p []
  | l@(_ :: t) => listStartsWith p l || listHasSub p t

/-- Number of occurrences of the character `c`; models `str.count` for a
single-character needle (as in `href.count("/")`). -/
def countCh (c : Char) (l : List Char) : Nat :=
  (l.filter (· == c)).length

/-- Python `str.split(sep)` for a single-character separator:
`splitChar '/' "a//b".data = ["a", "", "b"].data…`, and the split of the
empty string is `[[]]`, exactly as in Python. -/
def splitChar (sep : Char) : List Char → List (List Char)
  | [] => [[]]
  | c :: cs =>
    if c = sep then [] :: splitChar sep cs
    else
      match splitChar sep cs with
      | [] => [[c]]
      | h :: t => (c :: h) :: t

/-- One pass of Python `str.title()`: an alphabetic character is uppercased
when the previous character is not alphabetic and lowercased otherwise
(`prev` records whether the previous character was alphabetic). -/
def pyTitleGo : Bool → List Char → List Char
  | _, [] => []
  | prev, c :: cs =>
    if c.isAlpha then
      (if prev then c.toLower else c.toUpper) :: pyTitleGo true cs
    else
      c :: pyTitleGo false cs

/-- Python `str.title()` (ASCII data, as produced by the site's URLs). -/
def pyTitleL (l : List Char) : List Char :=
  pyTitleGo false l

/-- Python `str.strip()` with no argument: remove leading and trailing
whitespace. -/
def pyStripL (l : List Char) : List Char :=
  ((l.dropWhile Char.isWhitespace).reverse.dropWhile Char.isWhitespace).reverse

/-- Worker for `listReplace`, structurally recursive on the string: `skip`
counts characters still to be consumed silently because they belong to an
occurrence of `pat` that has already been replaced. -/
def listReplaceGo (pat rep : List Char) : List Char → Nat → List Char
  | [], _ => []
  | c :: cs, skip =>
    match skip with
    | k + 1 => listReplaceGo pat rep cs k
    | 0 =>
      if pat ≠ [] ∧ listStartsWith pat (c :: cs) = true then
        rep ++ listReplaceGo pat rep cs (pat.length - 1)
      else
        c :: listReplaceGo pat rep cs 0

/-- Python `str.replace(pat, rep)`: replace every occurrence of `pat`
left-to-right, non-overlapping.  (The source only ever calls it with a
non-empty `pat`; for `pat = []` this model returns the string unchanged.) -/
def listReplace (pat rep : List Char) (l : List Char) : List Char :=
  listReplaceGo pat rep l 0

/-- Python `str.split()` with no argument: split on runs of whitespace,
discarding empty pieces. -/
def pySplitWs (l : List Char) : List (List Char) :=
  (splitOnWs l).filter (· ≠ [])
where
  /-- split on every single whitespace character (empty pieces kept). -/
  splitOnWs : List Char → List (List Char)
    | [] => [[]]
    | c :: cs =>
      if c.isWhitespace then [] :: splitOnWs cs
      else
        match splitOnWs cs with
        | [] => [[c]]
        | h :: t => (c :: h) :: t

/-- Python `' '.join(pieces)`. -/
def joinSpace : List (List Char) → List Char
  | [] => []
  | [p] => p
  | p :: ps => p ++ ' ' :: joinSpace ps

/-! ## Basic lemmas about the primitives -/

theorem listStartsWith_iff (p l : List Char) :
    listStartsWith p l = true ↔ ∃ r, l = p ++ r := by
  induction p generalizing l with
  | nil => simp [listStartsWith]
  | cons a p ih =>
    cases l with
    | nil =>
      simp only [listStartsWith, List.cons_append]
      constructor
      · intro h; cases h
      · rintro ⟨r, h⟩; cases h
    | cons b l =>
      simp only [listStartsWith, Bool.and_eq_true, beq_iff_eq, ih]
      constructor
      · rintro ⟨rfl, r, rfl⟩; exact ⟨r, rfl⟩
      · rintro ⟨r, h⟩
        injection h with h1 h2
        exact ⟨h1.symm, r, h2⟩

theorem listStartsWith_length {p l : List Char}
    (h : listStartsWith p l = true) : p.length ≤ l.length := by
  obtain ⟨r, rfl⟩ := (listStartsWith_iff p l).mp h
  simp

theorem listEndsWith_iff (p l : List Char) :
    listEndsWith p l = true ↔ ∃ r, l = r ++ p := by
  unfold listEndsWith
  rw [listStartsWith_iff]
  constructor
  · rintro ⟨r, h⟩
    refine ⟨r.reverse, ?_⟩
    have := congrArg List.reverse h
    simpa using this
  · rintro ⟨r, rfl⟩
    exact ⟨r.reverse, by simp⟩

theorem listHasSub_iff (p l : List Char) :
    listHasSub p l = true ↔ ∃ pre post, l = pre ++ p ++ post := by
  induction l with
  | nil =>
    simp only [listHasSub, listStartsWith_iff]
    constructor
    · rintro ⟨r, h⟩
      exact ⟨[], r, by simpa using h⟩
    · rintro ⟨pre, post, h⟩
      rw [List.append_assoc] at h
      have h2 := (List.append_eq_nil).mp h.symm
      exact ⟨post, by rw [h, h2.1]; simp⟩
  | cons c t ih =>
    simp only [listHasSub, Bool.or_eq_true, listStartsWith_iff, ih]
    constructor
    · rintro (⟨r, h⟩ | ⟨pre, post, h⟩)
      · exact ⟨[], r, by simpa using h⟩
      · exact ⟨c :: pre, post, by simp [h]⟩
    · rintro ⟨pre, post, h⟩
      cases pre with
      | nil => exact Or.inl ⟨post, by simpa using h⟩
      | cons x xs =>
        right
        injection h with h1 h2
        exact ⟨xs, post, h2⟩

/-- `takeWhile`/`dropWhile` recover an append split at the first failing
character. -/
theorem takeWhile_append_of {p : Char → Bool} {a : List Char} {x : Char}
    {r : List Char} (ha : ∀ c ∈ a, p c = true) (hx : p x = false) :
    (a ++ x :: r).takeWhile p = a ∧ (a ++ x :: r).dropWhile p = x :: r := by
  induction a with
  | nil => simp [List.takeWhile, List.dropWhile, hx]
  | cons c cs ih =>
    have hc : p c = true := ha c (by simp)
    have ih2 := ih (fun d hd => ha d (by simp [hd]))
    simp [List.takeWhile, List.dropWhile, hc, ih2.1, ih2.2]

theorem takeWhile_mem {p : Char → Bool} {l : List Char} :
    ∀ c ∈ l.takeWhile p, p c = true := by
  intro c hc
  exact List.mem_takeWhile_imp hc

theorem takeWhile_dropWhile_eq (p : Char → Bool) (l : List Char) :
    l.takeWhile p ++ l.dropWhile p = l :=
  List.takeWhile_append_dropWhile p l

/-! ## Data model -/

/-- The `{region, country, place}` triple computed by
`scraper.parse_url_parts`. -/
structure LocationKey where
  region : String
  country : String
  place : String
deriving Repr, DecidableEq

/-- The `{continent, country, city}` triple computed by
`scrap.extract_location_from_url` (also in `scrap_simple.py`). -/
structure UrlLocation where
  continent : String
  country : String
  city : String
deriving Repr, DecidableEq

/-- Hyphen-to-space then Python `.title()`, the segment transform both
parsers apply. -/
def segTransform (l : List Char) : List Char :=
  pyTitleL (listReplace ['-'] [' '] l)

/-- `scraper.py` / `scraper_webreader.py`:

```python
def parse_url_parts(url: str) -> dict[str, str]:
    parts = url.split("/")
    # URL structure: .../places-to-go/<region>/<country>/<place>.html
    region = parts[-4].replace("-", " ").title()
    country = parts[-3].replace("-", " ").title()
    place = parts[-2].replace("-", " ").title()
    return {"region": region, "country": country, "place": place}
```

Negative indices are modelled by `getD (n - k)`; this agrees with CPython
whenever the URL splits into at least 4 parts, which holds for every URL the
callers pass (they all contain `places-to-go` plus three further segments);
on shorter input CPython raises `IndexError` instead. -/
def parse_url_parts (url : String) : LocationKey :=
  let parts := splitChar '/' url.data
  let n := parts.length
  { region := ⟨segTransform (parts.getD (n - 4) [])⟩
    country := ⟨segTransform (parts.getD (n - 3) [])⟩
    place := ⟨segTransform (parts.getD (n - 2) [])⟩ }

/-- The group part of `re.search(r'/places-to-go/([^/]+)/([^/]+)/([^/]+)', …)`
once the literal `/places-to-go/` has been consumed: three non-empty
slash-free groups separated by literal slashes (the third greedy, running to
the next `/` or the end). -/
def locTail (l : List Char) : Option (List Char × List Char × List Char) :=
  let g1 := l.takeWhile (· ≠ '/')
  match l.dropWhile (· ≠ '/') with
  | '/' :: l2 =>
    let g2 := l2.takeWhile (· ≠ '/')
    match l2.dropWhile (· ≠ '/') with
    | '/' :: l3 =>
      let g3 := l3.takeWhile (· ≠ '/')
      if g1 ≠ [] ∧ g2 ≠ [] ∧ g3 ≠ [] then some (g1, g2, g3) else none
    | _ => none
  | _ => none

/-- The literal part of the location regex. -/
def ptgRoot : List Char := "/places-to-go/".data

/-- Leftmost search for `/places-to-go/([^/]+)/([^/]+)/([^/]+)`: try every
start position from the left, as `re.search` does. -/
def searchPTG : List Char → Option (List Char × List Char × List Char)
  | [] => none
  | l@(_ :: t) =>
    if listStartsWith ptgRoot l then
      match locTail (l.drop ptgRoot.length) with
      | some r => some r
      | none => searchPTG t
    else searchPTG t

/-- `scrap.py` (and identically `scrap_simple.py`):

```python
def extract_location_from_url(url):
    match = re.search(r'/places-to-go/([^/]+)/([^/]+)/([^/]+)', url)
    if match:
        continent = match.group(1).replace('-', ' ').title()
        country = match.group(2).replace('-', ' ').title()
        city = match.group(3).replace('-', ' ').title()
        return {"continent": continent, "country": country, "city": city}
    return {"continent": "N/A", "country": "N/A", "city": "N/A"}
``` -/
def extract_location_from_url (url : String) : UrlLocation :=
  match searchPTG url.data with
  | some (g1, g2, g3) =>
    { continent := ⟨segTransform g1⟩
      country := ⟨segTransform g2⟩
      city := ⟨segTransform g3⟩ }
  | none => { continent := "N/A", country := "N/A", city := "N/A" }

/-- **C1** (code bug, evaluation at the claimed input).  The claim says the
location parser returns `{region: "Africa", country: "Morocco",
place: "Marrakesh Solo Travel"}` for the Marrakesh article URL.  The code
does not: `parse_url_parts` indexes the split one slot too far to the left
(contradicting its own structure comment), yielding
`{region: "Places To Go", country: "Africa", place: "Morocco"}`, and the
`scrap.py` regex variant keeps the `.html` extension inside the third
segment, yielding city `"Marrakesh Solo Travel.Html"`. -/
theorem C1_location_parser_eval :
    parse_url_parts
        "https://www.united.com/en/us/hemispheres/places-to-go/africa/morocco/marrakesh-solo-travel.html"
      = { region := "Places To Go", country := "Africa", place := "Morocco" }
  ∧ extract_location_from_url
        "https://www.united.com/en/us/hemispheres/places-to-go/africa/morocco/marrakesh-solo-travel.html"
      = { continent := "Africa", country := "Morocco",
          city := "Marrakesh Solo Travel.Html" } := by
  constructor <;> decide

/-! ## URL classifier (`scraper.py` / `scraper_webreader.py`) -/

/-- `BLOCKLIST` from `scraper.py` (identical in `scraper_webreader.py`). -/
def BLOCKLIST : List String :=
  ["/nyt/", "/things-to-do/", "/stays/", "/food/", "/culture/"]

/-- The literal root of `ARTICLE_PATTERN`. -/
def hplRoot : List Char := "/hemispheres/places-to-go/".data

/-- Matcher for the part of
`ARTICLE_PATTERN = re.compile(r"/hemispheres/places-to-go/[^/]+/[^/]+/[^/]+\.html$")`
that follows the literal root: two non-empty slash-free segments, then a
final slash-free segment ending in `.html`, anchored at the end of the
string.  Deterministic because `[^/]+` cannot cross the literal `/`
separators. -/
def articleTail (l : List Char) : Bool :=
  match l.dropWhile (· != '/') with
  | '/' :: l2 =>
    match l2.dropWhile (· != '/') with
    | '/' :: l3 =>
      !(l.takeWhile (· != '/')).isEmpty && !(l2.takeWhile (· != '/')).isEmpty &&
        l3.all (· != '/') && listEndsWith ".html".data l3 && decide (5 < l3.length)
    | _ => false
  | _ => false

/-- `ARTICLE_PATTERN.search(url)` as a boolean: try every start position from
the left, as `re.search` does (the `$` anchor is enforced by `articleTail`). -/
def articleSearch : List Char → Bool
  | [] => false
  | l@(_ :: t) =>
    (listStartsWith hplRoot l && articleTail (l.drop hplRoot.length)) ||
      articleSearch t

/-- `scraper.py`:

```python
def is_valid_article(url: str) -> bool:
    if any(bad in url for bad in BLOCKLIST):
        return False
    # Exclude index pages (region/country listings)
    if INDEX_PATTERN.search(url):
        return False
    return bool(ARTICLE_PATTERN.search(url))
```

with `INDEX_PATTERN = re.compile(r"/index\.html$")`. -/
def is_valid_article (url : String) : Bool :=
  if BLOCKLIST.any (fun bad => listHasSub bad.data url.data) then false
  else if listEndsWith "/index.html".data url.data then false
  else articleSearch url.data

/-- Declarative reading of "contains a blocked segment": some entry of the
blocklist occurs as a substring of the URL. -/
def BlockedSeg (url : String) : Prop :=
  ∃ b ∈ BLOCKLIST, ∃ pre post, url.data = pre ++ b.data ++ post

/-- Declarative reading of "ends in the index filename". -/
def EndsIndexFile (url : String) : Prop :=
  ∃ r, url.data = r ++ "/index.html".data

/-- Declarative reading of "matches the exact 3-segment article shape under
the places-to-go root ending in `.html`": the URL decomposes as
`…/hemispheres/places-to-go/<a>/<b>/<c>.html` with `a`, `b`, `c` non-empty
and slash-free, and nothing after the extension. -/
def ArticleShape (url : String) : Prop :=
  ∃ pre a b c,
    url.data = pre ++ hplRoot ++ (a ++ '/' :: (b ++ '/' :: (c ++ ".html".data))) ∧
    a ≠ [] ∧ b ≠ [] ∧ c ≠ [] ∧
    (∀ x ∈ a, x ≠ '/') ∧ (∀ x ∈ b, x ≠ '/') ∧ (∀ x ∈ c, x ≠ '/')

theorem blockedSeg_iff (url : String) :
    (BLOCKLIST.any fun bad => listHasSub bad.data url.data) = true ↔
      BlockedSeg url := by
  rw [List.any_eq_true]
  unfold BlockedSeg
  constructor
  · rintro ⟨b, hb, hsub⟩
    exact ⟨b, hb, (listHasSub_iff _ _).mp hsub⟩
  · rintro ⟨b, hb, hsub⟩
    exact ⟨b, hb, (listHasSub_iff _ _).mpr hsub⟩

theorem endsIndexFile_iff (url : String) :
    listEndsWith "/index.html".data url.data = true ↔ EndsIndexFile url :=
  listEndsWith_iff _ _

theorem articleTail_iff (l : List Char) :
    articleTail l = true ↔
      ∃ a b c,
        l = a ++ '/' :: (b ++ '/' :: (c ++ ".html".data)) ∧
        a ≠ [] ∧ b ≠ [] ∧ c ≠ [] ∧
        (∀ x ∈ a, x ≠ '/') ∧ (∀ x ∈ b, x ≠ '/') ∧ (∀ x ∈ c, x ≠ '/') := by
  constructor
  · intro h
    unfold articleTail at h
    split at h
    · next l2 heq2 =>
      split at h
      · next l3 heq3 =>
        simp only [Bool.and_eq_true, List.all_eq_true, Bool.not_eq_true',
          List.isEmpty_eq_false, ne_eq, decide_eq_true_eq,
          bne_iff_ne] at h
        obtain ⟨⟨⟨⟨ha, hb⟩, hall⟩, hend⟩, hlen⟩ := h
        obtain ⟨c0, hc0⟩ := (listEndsWith_iff _ _).mp hend
        have hla : l = l.takeWhile (· != '/') ++ '/' :: l2 := by
          conv_lhs => rw [← takeWhile_dropWhile_eq (· != '/') l]
          rw [heq2]
        have hlb : l2 = l2.takeWhile (· != '/') ++ '/' :: l3 := by
          conv_lhs => rw [← takeWhile_dropWhile_eq (· != '/') l2]
          rw [heq3]
        refine ⟨l.takeWhile (· != '/'), l2.takeWhile (· != '/'), c0,
          ?_, ?_, ?_, ?_, ?_, ?_, ?_⟩
        · conv_lhs => rw [hla, hlb, hc0]
        · exact ha
        · exact hb
        · intro hc0nil
          rw [hc0nil] at hc0
          rw [hc0] at hlen
          simp at hlen
        · intro x hx
          have := takeWhile_mem x hx
          simpa using this
        · intro x hx
          have := takeWhile_mem x hx
          simpa using this
        · intro x hx
          have hxmem : x ∈ l3 := by rw [hc0]; exact List.mem_append_left _ hx
          exact hall x hxmem
      · simp at h
    · simp at h
  · rintro ⟨a, b, c, rfl, ha, hb, hc, hma, hmb, hmc⟩
    have hsp : ((· != '/') '/') = false := by simp
    have hta := takeWhile_append_of (p := (· != '/')) (a := a)
      (x := '/') (r := b ++ '/' :: (c ++ ".html".data))
      (fun x hx => by simpa using hma x hx) hsp
    have htb := takeWhile_append_of (p := (· != '/')) (a := b)
      (x := '/') (r := c ++ ".html".data)
      (fun x hx => by simpa using hmb x hx) hsp
    simp only [articleTail, hta.2, htb.2, hta.1, htb.1]
    simp only [Bool.and_eq_true, Bool.not_eq_true', List.isEmpty_eq_false,
      ne_eq, List.all_eq_true, decide_eq_true_eq, bne_iff_ne]
    refine ⟨⟨⟨⟨ha, hb⟩, ?_⟩, ?_⟩, ?_⟩
    · intro x hx
      rcases List.mem_append.mp hx with hx | hx
      · exact hmc x hx
      · exact (by decide : ∀ y ∈ (".html".data : List Char), ¬ y = '/') x hx
    · exact (listEndsWith_iff _ _).mpr ⟨c, rfl⟩
    · have hcpos : 0 < c.length := List.length_pos.mpr hc
      simp only [List.length_append, List.length_cons, List.length_nil]
      omega

theorem articleSearch_iff (l : List Char) :
    articleSearch l = true ↔
      ∃ pre t, l = pre ++ hplRoot ++ t ∧ articleTail t = true := by
  induction l with
  | nil =>
    simp only [articleSearch]
    constructor
    · intro h; cases h
    · rintro ⟨pre, t, h, _⟩
      exfalso
      have := congrArg List.length h
      simp [hplRoot] at this
      omega
  | cons x xs ih =>
    simp only [articleSearch, Bool.or_eq_true, Bool.and_eq_true, ih]
    constructor
    · rintro (⟨hs, ht⟩ | ⟨pre, t, rfl, ht⟩)
      · obtain ⟨r, hr⟩ := (listStartsWith_iff _ _).mp hs
        refine ⟨[], r, by simpa using hr, ?_⟩
        rw [hr, List.drop_left] at ht
        exact ht
      · exact ⟨x :: pre, t, by simp, ht⟩
    · rintro ⟨pre, t, h, ht⟩
      cases pre with
      | nil =>
        left
        simp only [List.nil_append] at h
        constructor
        · exact (listStartsWith_iff _ _).mpr ⟨t, h⟩
        · rw [h, List.drop_left]
          exact ht
      | cons y ys =>
        right
        injection h with h1 h2
        exact ⟨ys, t, h2, ht⟩

theorem articleShape_iff (url : String) :
    articleSearch url.data = true ↔ ArticleShape url := by
  rw [articleSearch_iff]
  unfold ArticleShape
  constructor
  · rintro ⟨pre, t, h, ht⟩
    obtain ⟨a, b, c, rfl, ha, hb, hc, hma, hmb, hmc⟩ := (articleTail_iff t).mp ht
    exact ⟨pre, a, b, c, h, ha, hb, hc, hma, hmb, hmc⟩
  · rintro ⟨pre, a, b, c, h, ha, hb, hc, hma, hmb, hmc⟩
    refine ⟨pre, a ++ '/' :: (b ++ '/' :: (c ++ ".html".data)), h, ?_⟩
    exact (articleTail_iff _).mpr ⟨a, b, c, rfl, ha, hb, hc, hma, hmb, hmc⟩

/-- **C2** (confirmed).  The article classifier rejects every URL containing
a blocklist entry or ending in the index filename — even when the URL
otherwise matches the article shape — and accepts every URL that is not
blocked, is not an index page, and matches the exact 3-segment article shape
`…/hemispheres/places-to-go/<region>/<country>/<place>.html`. -/
theorem C2_classifier_blocklist_and_shape (url : String) :
    (BlockedSeg url ∨ EndsIndexFile url → is_valid_article url = false) ∧
    (¬ BlockedSeg url → ¬ EndsIndexFile url → ArticleShape url →
      is_valid_article url = true) := by
  constructor
  · rintro (hb | hi)
    · unfold is_valid_article
      rw [if_pos ((blockedSeg_iff url).mpr hb)]
    · unfold is_valid_article
      by_cases hblk : (BLOCKLIST.any fun bad => listHasSub bad.data url.data) = true
      · rw [if_pos hblk]
      · rw [if_neg hblk, if_pos ((endsIndexFile_iff url).mpr hi)]
  · intro hnb hni hshape
    unfold is_valid_article
    rw [if_neg (fun h => hnb ((blockedSeg_iff url).mp h)),
      if_neg (fun h => hni ((endsIndexFile_iff url).mp h))]
    exact (articleShape_iff url).mpr hshape

/-- Witness for C2: the spec's end-to-end scenario 3 URL (blocked segment)
is rejected, and the Marrakesh article URL is accepted. -/
theorem C2_classifier_witness :
    is_valid_article
        "https://www.united.com/en/us/hemispheres/places-to-go/africa/morocco/things-to-do/markets.html"
      = false ∧
    is_valid_article
        "https://www.united.com/en/us/hemispheres/places-to-go/africa/morocco/marrakesh-solo-travel.html"
      = true := by
  constructor
  · exact (C2_classifier_blocklist_and_shape _).1
      (Or.inl ⟨"/things-to-do/", by decide,
        "https://www.united.com/en/us/hemispheres/places-to-go/africa/morocco".data,
        "markets.html".data, by decide⟩)
  · refine (C2_classifier_blocklist_and_shape _).2
      (fun h => absurd ((blockedSeg_iff _).mpr h) (by decide))
      (fun h => absurd ((endsIndexFile_iff _).mpr h) (by decide))
      ⟨"https://www.united.com/en/us".data, "africa".data, "morocco".data,
        "marrakesh-solo-travel".data, by decide, by decide, by decide,
        by decide, ?_, ?_, ?_⟩ <;> decide

/-! ## Link discovery -/

/-- `BASE_URL` from `scraper.py`. -/
def BASE_URL : String := "https://www.united.com"

/-- `MAIN_URL` from `scraper.py`. -/
def MAIN_URL : String :=
  "https://www.united.com/en/us/hemispheres/places-to-go/index.html"

/-- Models `urllib.parse.urljoin(base, href)` for the fixed base
`"https://www.united.com"` (scheme + authority, empty path) on the href
shapes the crawler encounters: an absolute `http(s)` URL is returned
unchanged, a protocol-relative `//…` href gets the base's scheme, a
root-relative `/…` href is appended to the authority, and any other
relative href resolves against the base's empty path. -/
def urljoin (base href : String) : String :=
  if listStartsWith "http://".data href.data ||
      listStartsWith "https://".data href.data then href
  else if listStartsWith "//".data href.data then "https:" ++ href
  else if listStartsWith "/".data href.data then base ++ href
  else base ++ "/" ++ href

/-- Sorted insertion keeping the list strictly increasing (no duplicate is
inserted).  `foldl` of this over any list reproduces Python's
`sorted(set(…))`: the strictly ascending enumeration of the distinct
elements. -/
def insertStrD (s : String) : List String → List String
  | [] => [s]
  | t :: ts =>
    if s = t then t :: ts
    else if s < t then s :: t :: ts
    else t :: insertStrD s ts

/-- Python `sorted(set(l))` (ascending lexicographic code-point order, the
order Python uses on `str`, which coincides with `String.lt`). -/
def sortDedup (l : List String) : List String :=
  l.foldl (fun acc s => insertStrD s acc) []

theorem mem_insertStrD (u s : String) (l : List String) :
    u ∈ insertStrD s l ↔ u = s ∨ u ∈ l := by
  induction l with
  | nil => simp [insertStrD]
  | cons t ts ih =>
    unfold insertStrD
    split_ifs with h1 h2
    · subst h1
      simp only [List.mem_cons]
      tauto
    · simp only [List.mem_cons]
    · simp only [List.mem_cons, ih]
      tauto

theorem sorted_insertStrD (s : String) (l : List String)
    (h : l.Sorted (· < ·)) : (insertStrD s l).Sorted (· < ·) := by
  induction l with
  | nil => simp [insertStrD]
  | cons t ts ih =>
    rw [List.sorted_cons] at h
    unfold insertStrD
    split_ifs with h1 h2
    · exact List.sorted_cons.mpr h
    · refine List.sorted_cons.mpr ⟨?_, List.sorted_cons.mpr h⟩
      intro b hb
      rcases List.mem_cons.mp hb with rfl | hb
      · exact h2
      · exact h2.trans (h.1 b hb)
    · refine List.sorted_cons.mpr ⟨?_, ih h.2⟩
      intro b hb
      rcases (mem_insertStrD b s ts).mp hb with rfl | hb
      · rcases lt_trichotomy b t with hlt | rfl | hgt
        · exact absurd hlt h2
        · exact absurd rfl h1
        · exact hgt
      · exact h.1 b hb

theorem sorted_sortDedup (l : List String) :
    (sortDedup l).Sorted (· < ·) := by
  suffices h : ∀ acc : List String, acc.Sorted (· < ·) →
      (l.foldl (fun acc s => insertStrD s acc) acc).Sorted (· < ·) by
    exact h [] (by simp)
  induction l with
  | nil => intro acc hacc; exact hacc
  | cons x xs ih =>
    intro acc hacc
    exact ih _ (sorted_insertStrD x acc hacc)

theorem mem_sortDedup (u : String) (l : List String) :
    u ∈ sortDedup l ↔ u ∈ l := by
  suffices h : ∀ acc : List String,
      (u ∈ l.foldl (fun acc s => insertStrD s acc) acc ↔ u ∈ acc ∨ u ∈ l) by
    simpa using h []
  induction l with
  | nil => intro acc; simp
  | cons x xs ih =>
    intro acc
    simp only [List.foldl_cons, ih, mem_insertStrD, List.mem_cons]
    tauto

theorem nodup_of_sorted_lt {l : List String} (h : l.Sorted (· < ·)) :
    l.Nodup :=
  h.imp ne_of_lt

/-- Two strictly sorted lists with the same members are equal. -/
theorem sorted_lt_ext {l₁ l₂ : List String} (h₁ : l₁.Sorted (· < ·))
    (h₂ : l₂.Sorted (· < ·)) (hm : ∀ x, x ∈ l₁ ↔ x ∈ l₂) : l₁ = l₂ := by
  induction l₁ generalizing l₂ with
  | nil =>
    cases l₂ with
    | nil => rfl
    | cons b u => exact absurd ((hm b).mpr (by simp)) (by simp)
  | cons a t ih =>
    cases l₂ with
    | nil => exact absurd ((hm a).mp (by simp)) (by simp)
    | cons b u =>
      rw [List.sorted_cons] at h₁ h₂
      have hab : a = b := by
        rcases List.mem_cons.mp ((hm a).mp (by simp)) with h | h
        · exact h
        · rcases List.mem_cons.mp ((hm b).mpr (by simp)) with h' | h'
          · exact h'.symm
          · exact absurd ((h₂.1 a h).trans (h₁.1 b h')) (lt_irrefl b)
      subst hab
      have hmem : ∀ x, x ∈ t ↔ x ∈ u := by
        intro x
        constructor
        · intro hx
          rcases List.mem_cons.mp ((hm x).mp (List.mem_cons_of_mem a hx)) with rfl | h
          · exact absurd (h₁.1 x hx) (lt_irrefl x)
          · exact h
        · intro hx
          rcases List.mem_cons.mp ((hm x).mpr (List.mem_cons_of_mem a hx)) with rfl | h
          · exact absurd (h₂.1 x hx) (lt_irrefl x)
          · exact h
      rw [ih h₁.2 h₂.2 hmem]

/-- The href values accepted by `scraper.extract_region_links` for a single
anchor (the conjunction mirrors the nesting of the source's conditionals):

```python
if href and "/hemispheres/places-to-go/" in href:
    if href.endswith("/index.html") and href.count("/") >= 6:
        full_url = urljoin(BASE_URL, href)
        if full_url != MAIN_URL:
            urls.add(full_url)
``` -/
def region_accept (href : String) : Bool :=
  decide (href ≠ "") && listHasSub hplRoot href.data &&
    listEndsWith "/index.html".data href.data &&
    decide (6 ≤ countCh '/' href.data) &&
    decide (urljoin BASE_URL href ≠ MAIN_URL)

/-- The multiset of absolute URLs `scraper.extract_region_links` adds to its
set, in anchor order. -/
def region_link_candidates (anchors : List (Option String)) : List String :=
  anchors.filterMap fun h =>
    match h with
    | none => none
    | some href =>
      if region_accept href then some (urljoin BASE_URL href) else none

/-- `scraper.extract_region_links`, with the page modelled by the sequence
of `href` attributes of its `a[href]` anchors (`None` when the attribute is
missing). -/
def extract_region_links (anchors : List (Option String)) : List String :=
  sortDedup (region_link_candidates anchors)

/-- The per-anchor filter of `scraper.extract_article_links`:

```python
if href:
    full_url = urljoin(BASE_URL, href)
    if is_valid_article(full_url):
        urls.add(full_url)
``` -/
def article_link_candidates (anchors : List (Option String)) : List String :=
  anchors.filterMap fun h =>
    match h with
    | none => none
    | some href =>
      if href = "" then none
      else
        let full := urljoin BASE_URL href
        if is_valid_article full then some full else none

/-- `scraper.extract_article_links`. -/
def extract_article_links (anchors : List (Option String)) : List String :=
  sortDedup (article_link_candidates anchors)

/-! ## Webreader regex link discovery (`scraper_webreader.py`) -/

/-- `re.findall` driver: scan left to right, emitting each non-overlapping
match and resuming after it, advancing one character where no match starts.
The fuel starts at the length of the input, which bounds the number of
steps (each step either consumes at least one character or moves past a
non-empty match). -/
def findallGo (step : List Char → Option (List Char × List Char)) :
    Nat → List Char → List (List Char)
  | 0, _ => []
  | _ + 1, [] => []
  | fuel + 1, l@(_ :: t) =>
    match step l with
    | some (g, rest) => g :: findallGo step fuel rest
    | none => findallGo step fuel t

def findall (step : List Char → Option (List Char × List Char))
    (l : List Char) : List (List Char) :=
  findallGo step l.length l

/-- The literal head shared by the two webreader patterns. -/
def wrHrefRoot : List Char := "href=\"/en/us/hemispheres/places-to-go/".data

/-- One attempted match of
`r'href="(/en/us/hemispheres/places-to-go/[^/]+/index\.html)"'` at the
current position; on success returns the captured group and the remainder
after the closing quote.  The `[^/]+` segment cannot cross a slash, so the
match is deterministic. -/
def tryWrRegion (l : List Char) : Option (List Char × List Char) :=
  if listStartsWith wrHrefRoot l then
    let l1 := l.drop wrHrefRoot.length
    let seg := l1.takeWhile (· != '/')
    let rest := l1.dropWhile (· != '/')
    if seg.isEmpty then none
    else if listStartsWith ("/index.html\"").data rest then
      some ("/en/us/hemispheres/places-to-go/".data ++ seg ++ "/index.html".data,
        rest.drop 12)
    else none
  else none

/-- One attempted match of
`r'href="(/en/us/hemispheres/places-to-go/[^"]+\.html)"'` at the current
position.  `[^"]+` runs greedily to the closing quote, so the group is the
whole quote-free run, which must end in `.html` with a non-empty stem. -/
def tryWrArticle (l : List Char) : Option (List Char × List Char) :=
  if listStartsWith wrHrefRoot l then
    let l1 := l.drop wrHrefRoot.length
    let run := l1.takeWhile (· != '"')
    if decide (6 ≤ run.length) && listEndsWith ".html".data run &&
        listStartsWith ['"'] (l1.drop run.length) then
      some ("/en/us/hemispheres/places-to-go/".data ++ run,
        l1.drop (run.length + 1))
    else none
  else none

/-- `scraper_webreader.extract_region_links` on the raw page markup:

```python
urls = set()
pattern = r'href="(/en/us/hemispheres/places-to-go/[^/]+/index\.html)"'
matches = re.findall(pattern, html)
for match in matches:
    full_url = urljoin(BASE_URL, match)
    if full_url != MAIN_URL:
        urls.add(full_url)
return sorted(urls)
``` -/
def extract_region_links_wr (html : String) : List String :=
  sortDedup
    (((findall tryWrRegion html.data).map
      (fun g => urljoin BASE_URL ⟨g⟩)).filter (· ≠ MAIN_URL))

/-- `scraper_webreader.extract_article_links`: same findall driver with the
article pattern, then the `is_valid_article` filter. -/
def extract_article_links_wr (html : String) : List String :=
  sortDedup
    (((findall tryWrArticle html.data).map
      (fun g => urljoin BASE_URL ⟨g⟩)).filter (fun u => is_valid_article u))

/-! ## Document extraction -/

/-- An article record (`scrape_article`'s result dictionary). -/
structure Dest where
  place_name : String
  article_title : String
  article_url : String
  hero_image : Option String
  description : String
deriving Repr, DecidableEq

/-- An article page as `scrape_article` observes it through the rendering
engine (an external collaborator): whether navigation succeeds, whether the
`h1` selector wait succeeds, the `h1` text, and per-selector element count,
first `src` attribute and first inner text. -/
structure Page where
  loadOk : Bool
  hasH1 : Bool
  h1Text : String
  cnt : String → Nat
  src : String → Option String
  txt : String → String

/-- `hero_selectors` from `scraper.scrape_article`. -/
def hero_selectors : List String :=
  ["img[fetchpriority=\x27high\x27]", "article img", ".hero-image img",
   ".featured-image img"]

/-- `desc_selectors` from `scraper.scrape_article`. -/
def desc_selectors : List String :=
  ["p.intro", ".deck", ".article-intro p", "article p", "main p"]

/-- The hero-image fallback loop of `scraper.scrape_article`:

```python
for selector in hero_selectors:
    if page.locator(selector).count() > 0:
        src = page.locator(selector).first.get_attribute("src")
        if src:
            hero_image = src if src.startswith("http") else urljoin(BASE_URL, src)
            break
``` -/
def heroChain (p : Page) : List String → Option String
  | [] => none
  | sel :: rest =>
    if p.cnt sel > 0 then
      match p.src sel with
      | some s =>
        if s ≠ "" then
          some (if listStartsWith "http".data s.data then s
            else urljoin BASE_URL s)
        else heroChain p rest
      | none => heroChain p rest
    else heroChain p rest

/-- The description fallback loop of `scraper.scrape_article`:

```python
for selector in desc_selectors:
    if page.locator(selector).count() > 0:
        text = page.locator(selector).first.inner_text().strip()
        if len(text) > 50:  # Ensure it's meaningful content
            description = text
            break
``` -/
def descChain (p : Page) : List String → Option String
  | [] => none
  | sel :: rest =>
    if p.cnt sel > 0 then
      let text : String := ⟨pyStripL (p.txt sel).data⟩
      if 50 < text.length then some text else descChain p rest
    else descChain p rest

/-- `scraper.scrape_article`.  The whole body runs inside `try/except`: a
navigation failure or an `h1` selector timeout raises, is caught, and the
function returns `None`; otherwise the record is assembled from the
fallback chains and `parse_url_parts` (the source applies no truncation to
`description`, only the `or ""` default). -/
def scrape_article (p : Page) (url : String) : Option Dest :=
  if p.loadOk && p.hasH1 then
    some { place_name := (parse_url_parts url).place
           article_title := ⟨pyStripL p.h1Text.data⟩
           article_url := url
           hero_image := heroChain p hero_selectors
           description := (descChain p desc_selectors).getD "" }
  else none

/-- `re.sub(r'<[^>]+>', '', s)` worker: `skip` counts characters belonging
to a tag being deleted.  A `<` followed by a non-empty `>`-free run and a
`>` deletes the whole bracketed group; any other character is kept. -/
def stripTagsGo : List Char → Nat → List Char
  | [], _ => []
  | c :: cs, skip =>
    match skip with
    | k + 1 => stripTagsGo cs k
    | 0 =>
      if c = '<' then
        let run := cs.takeWhile (· != '>')
        if !run.isEmpty && listStartsWith ['>'] (cs.drop run.length) then
          stripTagsGo cs (run.length + 1)
        else c :: stripTagsGo cs 0
      else c :: stripTagsGo cs 0

/-- `re.sub(r'<[^>]+>', '', s)`. -/
def stripTags (l : List Char) : List Char :=
  stripTagsGo l 0

/-- `.replace('&nbsp;', ' ').replace('&amp;', '&')`, in source order. -/
def entityClean (l : List Char) : List Char :=
  listReplace "&amp;".data "&".data (listReplace "&nbsp;".data " ".data l)

/-- What `scrape_article_from_html` observes of its regex searches over the
raw markup (each field is the captured group of the corresponding
`re.search`, `none` when the pattern does not match):
`titleMatch` for `<h1[^>]*>(.*?)</h1>`, `img1`/`img2` for the two
`img_patterns`, `introMatch` for the intro-paragraph pattern and
`longPMatch` for the `<p[^>]*>(.{100,500})</p>` fallback. -/
structure HtmlScan where
  titleMatch : Option String
  img1 : Option String
  img2 : Option String
  introMatch : Option String
  longPMatch : Option String

/-- Image-src resolution in `scrape_article_from_html`:
`if not hero_image.startswith("http"): hero_image = urljoin(BASE_URL, hero_image)`. -/
def resolveImg (m : String) : String :=
  if listStartsWith "http".data m.data then m else urljoin BASE_URL m

/-- `scraper_webreader.scrape_article_from_html`: title is the stripped
`h1` group, tag-stripped, entity-cleaned and re-stripped (empty when no
match); the hero image is the first matching img pattern; the description
is the intro group or else the long-paragraph group, processed and then cut
to 500 characters (`description[:500] if description else ""`).  With the
regex results supplied as data the body cannot raise, so the `except`
branch returning `None` is unreachable. -/
def scrape_article_from_html (scan : HtmlScan) (url : String) : Option Dest :=
  let title0 : List Char :=
    match scan.titleMatch with
    | some g => pyStripL g.data
    | none => []
  let title : List Char := pyStripL (entityClean (stripTags title0))
  let hero : Option String :=
    match scan.img1 with
    | some m => some (resolveImg m)
    | none =>
      match scan.img2 with
      | some m => some (resolveImg m)
      | none => none
  let dm : Option String :=
    match scan.introMatch with
    | some g => some g
    | none => scan.longPMatch
  let description : List Char :=
    match dm with
    | some g => joinSpace (pySplitWs (entityClean (stripTags (pyStripL g.data))))
    | none => []
  some { place_name := (parse_url_parts url).place
         article_title := ⟨title⟩
         article_url := url
         hero_image := hero
         description := if description ≠ [] then ⟨description.take 500⟩ else "" }

/-- The title selection of `scrap_simple.scrape_article`:

```python
title = "N/A"
if ld_data.get('headline'):
    title = ld_data.get('headline')
elif soup.find('h1'):
    title = soup.find('h1').get_text(strip=True)
```

`ldHeadline` is the structured-metadata headline (`none` when the key is
absent; `some ""` is falsy, as in Python), `h1Text` the stripped text of
the first `h1` element (`none` when the document has none). -/
def scrap_simple_title (ldHeadline h1Text : Option String) : String :=
  match ldHeadline with
  | some h =>
    if h ≠ "" then h
    else
      match h1Text with
      | some t => t
      | none => "N/A"
  | none =>
    match h1Text with
    | some t => t
    | none => "N/A"

/-! ## Aggregation (`scraper.aggregate_by_country`) -/

/-- A country bucket of the output structure. -/
structure CountryEntry where
  region : String
  country : String
  destinations : List Dest
deriving Repr, DecidableEq

/-- The destination dictionary `aggregate_by_country` appends — rebuilt
field by field from the article record, exactly as in the source (it is
extensionally the record itself). -/
def mkD (a : Dest) : Dest :=
  { place_name := a.place_name
    article_title := a.article_title
    article_url := a.article_url
    hero_image := a.hero_image
    description := a.description }

theorem mkD_eq (a : Dest) : mkD a = a := rfl

/-- `scraper.aggregate_by_country`: compute the location key from the
record's `article_url`, linearly search for the first entry whose
`(region, country)` both match, append the record to its destination list
if found, otherwise append a fresh single-destination entry at the end of
the list.  (The source mutates the list in place; this is the
corresponding pure function.) -/
def aggregate_by_country (article : Dest) :
    List CountryEntry → List CountryEntry
  | [] =>
    [{ region := (parse_url_parts article.article_url).region
       country := (parse_url_parts article.article_url).country
       destinations := [mkD article] }]
  | c :: rest =>
    if c.region = (parse_url_parts article.article_url).region ∧
        c.country = (parse_url_parts article.article_url).country then
      { c with destinations := c.destinations ++ [mkD article] } :: rest
    else
      c :: aggregate_by_country article rest

/-! ## Checkpoint store -/

/-- The checkpoint structure `{processed_urls, countries_data}`. -/
structure Checkpoint where
  processed_urls : List String
  countries_data : List CountryEntry
deriving Repr, DecidableEq

/-- What a single attempt to open-and-read a file can yield: the file is
missing (`FileNotFoundError`), opening or reading fails for another reason
(e.g. `PermissionError`), or the raw contents are obtained. -/
inductive ReadOutcome where
  | fileNotFound
  | otherIOError
  | contents (s : String)

/-- Exceptions that `load_checkpoint` can let escape to its caller. -/
inductive PyExn where
  | osError
  | jsonDecodeError
deriving Repr, DecidableEq

/-- `scraper.load_checkpoint`:

```python
def load_checkpoint(checkpoint_file: str) -> dict:
    try:
        with open(checkpoint_file, "r", encoding="utf-8") as f:
            return json.load(f)
    except FileNotFoundError:
        return {"processed_urls": [], "countries_data": []}
```

Only `FileNotFoundError` is caught.  `json.load` on malformed contents
raises `json.JSONDecodeError`, and a non-missing-file `OSError` (e.g. a
permission failure) raises too; both escape to the caller.  `parseJson`
models the JSON codec (an external collaborator): `none` exactly when
`json.load` would raise on those contents. -/
def load_checkpoint (parseJson : String → Option Checkpoint) :
    ReadOutcome → Except PyExn Checkpoint
  | .fileNotFound => .ok { processed_urls := [], countries_data := [] }
  | .otherIOError => .error .osError
  | .contents s =>
    match parseJson s with
    | some c => .ok c
    | none => .error .jsonDecodeError

/-- The master store `{"places_to_go": [...]}` of `scrap_simple.py`
(entries kept abstract). -/
structure MasterDb (α : Type) where
  places_to_go : List α

/-- `scrap_simple.get_existing_data`:

```python
def get_existing_data():
    try:
        with open(DB_FILE, 'r') as f:
            return json.load(f)
    except:
        return {"places_to_go": []}
```

The bare `except:` catches every failure, so every failure path yields the
empty default and nothing ever escapes. -/
def get_existing_data {α : Type} (parseJson : String → Option (MasterDb α)) :
    ReadOutcome → MasterDb α
  | .contents s =>
    match parseJson s with
    | some d => d
    | none => { places_to_go := [] }
  | _ => { places_to_go := [] }

/-! ## Crawl orchestrator (`main.py`) -/

/-- The orchestrator's environment — everything the run observes through
the rendering engine, keyed by URL: the `href` attributes visible on a
loaded listing page (after the cookie-banner and "See more" expansion
steps, which only affect which anchors are present), the loaded article
page for each article URL, and whether a region page loads at all (the
per-region `try/except` catches a failed `goto` and skips the region). -/
structure RunEnv where
  anchorsOf : String → List (Option String)
  pageOf : String → Page
  regionOk : String → Bool

/-- The orchestrator's evolving state, instrumented with the trace of
`scrape_article` invocations (`calls`, in order) and the checkpoints
persisted by `save_checkpoint` (`saves`, in order). -/
structure RunState where
  processed : List String
  countries : List CountryEntry
  calls : List String
  saves : List Checkpoint

/-- `processed_urls.add(url)` — membership-preserving set insertion. -/
def addUrl (u : String) (l : List String) : List String :=
  if u ∈ l then l else l ++ [u]

/-- The per-article body of the orchestrator loop:

```python
article_data = scrape_article(page, article_url)
if article_data:
    aggregate_by_country(article_data, countries_data)
    processed_urls.add(article_url)
    save_checkpoint(CHECKPOINT_FILE, {
        "processed_urls": list(processed_urls),
        "countries_data": countries_data
    })
else:
    print(f"    [!] Failed to scrape, skipping", flush=True)
``` -/
def processArticle (env : RunEnv) (st : RunState) (url : String) : RunState :=
  match scrape_article (env.pageOf url) url with
  | some rec =>
    let countries := aggregate_by_country rec st.countries
    let processed := addUrl url st.processed
    { processed := processed
      countries := countries
      calls := st.calls ++ [url]
      saves := st.saves ++
        [{ processed_urls := processed, countries_data := countries }] }
  | none => { st with calls := st.calls ++ [url] }

/-- The per-region body of the orchestrator loop: on a region load failure
the `except` skips the whole region; otherwise the article links are
extracted, already-processed URLs are filtered out
(`[url for url in article_links if url not in processed_urls]`), and each
remaining article is scraped in order. -/
def processRegion (env : RunEnv) (st : RunState) (regionUrl : String) :
    RunState :=
  if env.regionOk regionUrl then
    let links := extract_article_links (env.anchorsOf regionUrl)
    let newArticles := links.filter (fun u => decide (u ∉ st.processed))
    newArticles.foldl (processArticle env) st
  else st

/-- `main.py`'s crawl, starting from an already-loaded checkpoint: visit
the main page, extract the region links, then process each region in
order. -/
def runMain (env : RunEnv) (cp : Checkpoint) : RunState :=
  (extract_region_links (env.anchorsOf MAIN_URL)).foldl (processRegion env)
    { processed := cp.processed_urls
      countries := cp.countries_data
      calls := []
      saves := [] }

/-! ### Run-model lemmas -/

theorem mem_addUrl (v u : String) (l : List String) :
    v ∈ addUrl u l ↔ v = u ∨ v ∈ l := by
  unfold addUrl
  split_ifs with h
  · constructor
    · exact Or.inr
    · rintro (rfl | hv)
      · exact h
      · exact hv
  · simp [List.mem_append, or_comm]

theorem processArticle_calls (env : RunEnv) (st : RunState) (url : String) :
    (processArticle env st url).calls = st.calls ++ [url] := by
  unfold processArticle
  split <;> rfl

theorem mem_processed_processArticle (env : RunEnv) (st : RunState)
    (url v : String) :
    v ∈ (processArticle env st url).processed ↔
      v ∈ st.processed ∨
        (v = url ∧ scrape_article (env.pageOf url) url ≠ none) := by
  unfold processArticle
  split
  · next rec heq =>
    simp only [mem_addUrl]
    constructor
    · rintro (rfl | h)
      · exact Or.inr ⟨rfl, by simp [heq]⟩
      · exact Or.inl h
    · rintro (h | ⟨rfl, _⟩)
      · exact Or.inr h
      · exact Or.inl rfl
  · next heq =>
    simp [heq]

theorem foldPA_calls (env : RunEnv) (us : List String) : ∀ st : RunState,
    (us.foldl (processArticle env) st).calls = st.calls ++ us := by
  induction us with
  | nil => intro st; simp
  | cons u tl ih =>
    intro st
    rw [List.foldl_cons, ih, processArticle_calls]
    simp

theorem foldPA_processed (env : RunEnv) (us : List String) (v : String) :
    ∀ st : RunState,
    v ∈ (us.foldl (processArticle env) st).processed ↔
      v ∈ st.processed ∨
        (v ∈ us ∧ scrape_article (env.pageOf v) v ≠ none) := by
  induction us with
  | nil => intro st; simp
  | cons u tl ih =>
    intro st
    rw [List.foldl_cons, ih, mem_processed_processArticle]
    simp only [List.mem_cons]
    constructor
    · rintro ((h | ⟨rfl, hs⟩) | ⟨htl, hs⟩)
      · exact Or.inl h
      · exact Or.inr ⟨Or.inl rfl, hs⟩
      · exact Or.inr ⟨Or.inr htl, hs⟩
    · rintro (h | ⟨rfl | htl, hs⟩)
      · exact Or.inl (Or.inl h)
      · exact Or.inl (Or.inr ⟨rfl, hs⟩)
      · exact Or.inr ⟨htl, hs⟩

theorem processRegion_calls (env : RunEnv) (st : RunState) (r : String) :
    (processRegion env st r).calls = st.calls ++
      (if env.regionOk r then
        (extract_article_links (env.anchorsOf r)).filter
          (fun u => decide (u ∉ st.processed))
      else []) := by
  unfold processRegion
  split_ifs with hc
  · simp [foldPA_calls]
  · simp

theorem processRegion_processed (env : RunEnv) (st : RunState)
    (r v : String) :
    v ∈ (processRegion env st r).processed ↔
      v ∈ st.processed ∨
        (env.regionOk r = true ∧
          v ∈ (extract_article_links (env.anchorsOf r)).filter
            (fun u => decide (u ∉ st.processed)) ∧
          scrape_article (env.pageOf v) v ≠ none) := by
  unfold processRegion
  split_ifs with hc
  · rw [foldPA_processed]
    simp [hc]
  · simp [hc]

theorem runFold_calls_superset (env : RunEnv) (rs : List String) :
    ∀ (st : RunState) (v : String),
      v ∈ st.calls → v ∈ (rs.foldl (processRegion env) st).calls := by
  induction rs with
  | nil => intro st v h; exact h
  | cons r tl ih =>
    intro st v h
    refine ih _ v ?_
    rw [processRegion_calls]
    exact List.mem_append.mpr (Or.inl h)

theorem runFold_calls_not_processed (env : RunEnv) (rs : List String) :
    ∀ (st : RunState) (v : String),
      v ∈ (rs.foldl (processRegion env) st).calls →
        v ∈ st.calls ∨ v ∉ st.processed := by
  induction rs with
  | nil => intro st v h; exact Or.inl h
  | cons r tl ih =>
    intro st v h
    rcases ih _ v h with h2 | h2
    · rw [processRegion_calls] at h2
      rcases List.mem_append.mp h2 with h3 | h3
      · exact Or.inl h3
      · right
        split_ifs at h3 with hok
        · have := List.of_mem_filter h3
          simpa using this
        · simp at h3
    · right
      intro hv
      exact h2 ((processRegion_processed env st r v).mpr (Or.inl hv))

theorem runFold_processed_none (env : RunEnv) (url : String)
    (hn : scrape_article (env.pageOf url) url = none) (rs : List String) :
    ∀ st : RunState,
      (url ∈ (rs.foldl (processRegion env) st).processed ↔
        url ∈ st.processed) := by
  induction rs with
  | nil => intro st; exact Iff.rfl
  | cons r tl ih =>
    intro st
    rw [List.foldl_cons, ih, processRegion_processed]
    simp [hn]

theorem processRegion_count (env : RunEnv) (st : RunState) (r url : String)
    (hs : scrape_article (env.pageOf url) url ≠ none) :
    (processRegion env st r).calls.count url +
      (if url ∈ (processRegion env st r).processed then 0 else 1) ≤
    st.calls.count url + (if url ∈ st.processed then 0 else 1) := by
  by_cases hok : env.regionOk r = true
  · set F := (extract_article_links (env.anchorsOf r)).filter
      (fun u => decide (u ∉ st.processed)) with hF
    have hcalls : (processRegion env st r).calls = st.calls ++ F := by
      rw [processRegion_calls, if_pos hok]
    have hcount : (processRegion env st r).calls.count url =
        st.calls.count url + F.count url := by
      rw [hcalls, List.count_append]
    have hnodupF : F.Nodup :=
      (nodup_of_sorted_lt (sorted_sortDedup _)).filter _
    by_cases hmem : url ∈ st.processed
    · have hFzero : F.count url = 0 := by
        rw [List.count_eq_zero]
        intro hin
        have := List.of_mem_filter hin
        simp only [decide_eq_true_eq] at this
        exact this hmem
      have hmem2 : url ∈ (processRegion env st r).processed :=
        (processRegion_processed env st r url).mpr (Or.inl hmem)
      rw [hcount, hFzero, if_pos hmem, if_pos hmem2]
    · rw [if_neg hmem]
      by_cases hinF : url ∈ F
      · have hmem2 : url ∈ (processRegion env st r).processed :=
          (processRegion_processed env st r url).mpr
            (Or.inr ⟨hok, hinF, hs⟩)
        have hFone : F.count url ≤ 1 :=
          List.nodup_iff_count_le_one.mp hnodupF url
        rw [hcount, if_pos hmem2]
        omega
      · have hFzero : F.count url = 0 := List.count_eq_zero.mpr hinF
        have hmem2 : url ∉ (processRegion env st r).processed := by
          intro hin
          rcases (processRegion_processed env st r url).mp hin with h | ⟨_, hf, _⟩
          · exact hmem h
          · exact hinF hf
        rw [hcount, hFzero, if_neg hmem2]
  · have hok2 : env.regionOk r = false := by
      simpa using hok
    unfold processRegion
    rw [hok2]
    simp

theorem runFold_count (env : RunEnv) (url : String)
    (hs : scrape_article (env.pageOf url) url ≠ none) (rs : List String) :
    ∀ st : RunState,
      (rs.foldl (processRegion env) st).calls.count url +
        (if url ∈ (rs.foldl (processRegion env) st).processed then 0 else 1) ≤
      st.calls.count url + (if url ∈ st.processed then 0 else 1) := by
  induction rs with
  | nil => intro st; exact le_refl _
  | cons r tl ih =>
    intro st
    calc (((r :: tl).foldl (processRegion env) st).calls.count url +
        (if url ∈ ((r :: tl).foldl (processRegion env) st).processed
          then 0 else 1))
        ≤ (processRegion env st r).calls.count url +
          (if url ∈ (processRegion env st r).processed then 0 else 1) :=
          ih (processRegion env st r)
      _ ≤ st.calls.count url + (if url ∈ st.processed then 0 else 1) :=
          processRegion_count env st r url hs

theorem runFold_attempts (env : RunEnv) (url : String) (rs : List String) :
    ∀ st : RunState, (url ∉ st.processed ∨ url ∈ st.calls) →
      ∀ r ∈ rs, env.regionOk r = true →
        url ∈ extract_article_links (env.anchorsOf r) →
        url ∈ (rs.foldl (processRegion env) st).calls := by
  induction rs with
  | nil => intro st _ r hr; cases hr
  | cons r0 tl ih =>
    intro st hinv r hr hok hlink
    have hinv2 : url ∉ (processRegion env st r0).processed ∨
        url ∈ (processRegion env st r0).calls := by
      rcases hinv with hnp | hc
      · by_cases hmem : url ∈ (processRegion env st r0).processed
        · right
          rcases (processRegion_processed env st r0 url).mp hmem with
            h | ⟨hok0, hF, _⟩
          · exact absurd h hnp
          · rw [processRegion_calls]
            refine List.mem_append.mpr (Or.inr ?_)
            rw [if_pos hok0]
            exact hF
        · exact Or.inl hmem
      · right
        rw [processRegion_calls]
        exact List.mem_append.mpr (Or.inl hc)
    rcases List.mem_cons.mp hr with rfl | hr2
    · have hcall : url ∈ (processRegion env st r).calls := by
        rcases hinv with hnp | hc
        · rw [processRegion_calls]
          refine List.mem_append.mpr (Or.inr ?_)
          rw [if_pos hok]
          exact List.mem_filter.mpr ⟨hlink, by simpa using hnp⟩
        · rw [processRegion_calls]
          exact List.mem_append.mpr (Or.inl hc)
      exact runFold_calls_superset env tl _ url hcall
    · exact ih _ hinv2 r hr2 hok hlink

/-! ### Checkpoint invariant -/

/-- The spec's checkpoint invariant: every processed URL has a
corresponding record inside some country entry. -/
def CheckpointInv (c : Checkpoint) : Prop :=
  ∀ u ∈ c.processed_urls, ∃ e ∈ c.countries_data, ∃ d ∈ e.destinations,
    d.article_url = u

/-- The invariant carried through the run: it holds of the in-memory pair
and of every checkpoint persisted so far. -/
def StateInv (st : RunState) : Prop :=
  (∀ u ∈ st.processed, ∃ e ∈ st.countries, ∃ d ∈ e.destinations,
    d.article_url = u) ∧
  ∀ c ∈ st.saves, CheckpointInv c

theorem scrape_article_url {p : Page} {url : String} {r : Dest}
    (h : scrape_article p url = some r) : r.article_url = url := by
  unfold scrape_article at h
  split_ifs at h with hc
  cases h
  rfl

theorem aggregate_keeps {a : Dest} {countries : List CountryEntry}
    {e : CountryEntry} {d : Dest} (he : e ∈ countries)
    (hd : d ∈ e.destinations) :
    ∃ e2 ∈ aggregate_by_country a countries, d ∈ e2.destinations := by
  induction countries with
  | nil => cases he
  | cons c rest ih =>
    unfold aggregate_by_country
    split_ifs with hc
    · rcases List.mem_cons.mp he with rfl | he2
      · exact ⟨{ e with destinations := e.destinations ++ [mkD a] },
          by simp, List.mem_append_left _ hd⟩
      · exact ⟨e, List.mem_cons_of_mem _ he2, hd⟩
    · rcases List.mem_cons.mp he with rfl | he2
      · exact ⟨e, by simp, hd⟩
      · obtain ⟨e2, he2m, hd2⟩ := ih he2
        exact ⟨e2, List.mem_cons_of_mem _ he2m, hd2⟩

theorem aggregate_adds (a : Dest) (countries : List CountryEntry) :
    ∃ e ∈ aggregate_by_country a countries, a ∈ e.destinations := by
  induction countries with
  | nil =>
    refine ⟨{ region := (parse_url_parts a.article_url).region
              country := (parse_url_parts a.article_url).country
              destinations := [mkD a] }, ?_, ?_⟩
    · simp [aggregate_by_country]
    · simp [mkD_eq]
  | cons c rest ih =>
    unfold aggregate_by_country
    split_ifs with hc
    · refine ⟨{ c with destinations := c.destinations ++ [mkD a] }, ?_, ?_⟩
      · exact List.mem_cons_self _ _
      · simp [mkD_eq]
    · obtain ⟨e, hm, hd⟩ := ih
      exact ⟨e, List.mem_cons_of_mem _ hm, hd⟩

theorem processArticle_inv {env : RunEnv} {st : RunState} {url : String}
    (h : StateInv st) : StateInv (processArticle env st url) := by
  unfold processArticle
  split
  · next rec heq =>
    have hurl := scrape_article_url heq
    have hmain : ∀ u ∈ addUrl url st.processed,
        ∃ e ∈ aggregate_by_country rec st.countries,
          ∃ d ∈ e.destinations, d.article_url = u := by
      intro u hu
      rcases (mem_addUrl u url st.processed).mp hu with rfl | hu2
      · obtain ⟨e, he, hd⟩ := aggregate_adds rec st.countries
        exact ⟨e, he, rec, hd, hurl⟩
      · obtain ⟨e, he, d, hd, hdu⟩ := h.1 u hu2
        obtain ⟨e2, he2, hd2⟩ := aggregate_keeps he hd
        exact ⟨e2, he2, d, hd2, hdu⟩
    refine ⟨hmain, ?_⟩
    intro c hc
    rcases List.mem_append.mp hc with hc | hc
    · exact h.2 c hc
    · rw [List.mem_singleton] at hc
      subst hc
      exact hmain
  · exact ⟨h.1, h.2⟩

theorem foldPA_inv (env : RunEnv) (us : List String) :
    ∀ st : RunState, StateInv st →
      StateInv (us.foldl (processArticle env) st) := by
  induction us with
  | nil => intro st h; exact h
  | cons u tl ih => intro st h; exact ih _ (processArticle_inv h)

theorem processRegion_inv {env : RunEnv} {st : RunState} {r : String}
    (h : StateInv st) : StateInv (processRegion env st r) := by
  unfold processRegion
  split_ifs with hc
  · exact foldPA_inv env _ _ h
  · exact h

theorem runFold_inv (env : RunEnv) (rs : List String) :
    ∀ st : RunState, StateInv st →
      StateInv (rs.foldl (processRegion env) st) := by
  induction rs with
  | nil => intro st h; exact h
  | cons r tl ih => intro st h; exact ih _ (processRegion_inv h)

/-- **C3** (confirmed).  In every run: (i) a URL loaded from the checkpoint
is never submitted to the extractor; (ii) whenever extraction of a URL
succeeds, that URL is submitted at most once in the whole run — once it
enters `processed_urls` it is filtered out of every later region pass;
(iii) a URL on which the extractor returns `None` is not added to
`processed_urls`; (iv) consequently a URL still unprocessed that appears
among the article links of a region whose page loads is attempted (so a
later run retries a previously failed URL). -/
theorem C3_resume_policy (env : RunEnv) (cp : Checkpoint) (url : String) :
    (url ∈ cp.processed_urls → url ∉ (runMain env cp).calls) ∧
    (scrape_article (env.pageOf url) url ≠ none →
      (runMain env cp).calls.count url ≤ 1) ∧
    (scrape_article (env.pageOf url) url = none →
      (url ∈ (runMain env cp).processed ↔ url ∈ cp.processed_urls)) ∧
    (∀ r, r ∈ extract_region_links (env.anchorsOf MAIN_URL) →
      env.regionOk r = true →
      url ∈ extract_article_links (env.anchorsOf r) →
      url ∉ cp.processed_urls →
      url ∈ (runMain env cp).calls) := by
  refine ⟨?_, ?_, ?_, ?_⟩
  · intro hmem hcall
    rcases runFold_calls_not_processed env _ _ url hcall with h | h
    · simp at h
    · exact h hmem
  · intro hs
    unfold runMain
    have := runFold_count env url hs
      (extract_region_links (env.anchorsOf MAIN_URL))
      { processed := cp.processed_urls, countries := cp.countries_data,
        calls := [], saves := [] }
    simp only [List.count_nil] at this
    split_ifs at this <;> omega
  · intro hn
    exact runFold_processed_none env url hn _ _
  · intro r hr hok hlink hnot
    exact runFold_attempts env url _ _ (Or.inl hnot) r hr hok hlink

/-- A page on which every observation fails (navigation fails, no `h1`). -/
def page0 : Page :=
  { loadOk := false, hasH1 := false, h1Text := "",
    cnt := fun _ => 0, src := fun _ => none, txt := fun _ => "" }

/-- An environment whose main page lists no anchors. -/
def env0 : RunEnv :=
  { anchorsOf := fun _ => [], pageOf := fun _ => page0,
    regionOk := fun _ => true }

/-- Witness for C3 at a concrete environment and checkpoint. -/
theorem C3_resume_policy_witness :
    "u" ∉ (runMain env0 { processed_urls := ["u"], countries_data := [] }).calls ∧
    ("u" ∈ (runMain env0 { processed_urls := ["u"], countries_data := [] }).processed ↔
      "u" ∈ ["u"]) := by
  constructor
  · exact (C3_resume_policy env0
      { processed_urls := ["u"], countries_data := [] } "u").1 (by decide)
  · exact (C3_resume_policy env0
      { processed_urls := ["u"], countries_data := [] } "u").2.2.1 rfl

/-- **C4** (confirmed).  If the loaded checkpoint satisfies the invariant —
every processed URL has a matching `article_url` inside some country
entry — then every checkpoint the orchestrator persists during the run
satisfies it too, and so does the final in-memory pair, because
aggregation, the processed mark and the save happen together after each
successful extraction. -/
theorem C4_checkpoint_invariant (env : RunEnv) (cp : Checkpoint)
    (h : CheckpointInv cp) :
    (∀ c ∈ (runMain env cp).saves, CheckpointInv c) ∧
    CheckpointInv { processed_urls := (runMain env cp).processed,
                    countries_data := (runMain env cp).countries } := by
  have h0 : StateInv
      { processed := cp.processed_urls, countries := cp.countries_data,
        calls := [], saves := [] } := by
    refine ⟨h, ?_⟩
    intro c hc
    simp at hc
  have hf := runFold_inv env (extract_region_links (env.anchorsOf MAIN_URL))
    _ h0
  exact ⟨hf.2, hf.1⟩

/-- The empty checkpoint. -/
def cpEmpty : Checkpoint := { processed_urls := [], countries_data := [] }

/-- Witness for C4 at a concrete environment and the empty checkpoint. -/
theorem C4_checkpoint_invariant_witness :
    (∀ c ∈ (runMain env0 cpEmpty).saves, CheckpointInv c) ∧
    CheckpointInv { processed_urls := (runMain env0 cpEmpty).processed
                    countries_data := (runMain env0 cpEmpty).countries } :=
  C4_checkpoint_invariant env0 cpEmpty
    (fun u hu => absurd hu (List.not_mem_nil u))

/-- **C5** (corrected, counterexample).  The claim says checkpoint load
returns empty defaults whenever the resource is absent *or unreadable*
(permission failure, malformed JSON) and never raises.  `load_checkpoint`
catches only `FileNotFoundError`: a permission-style read failure and a
JSON decoding failure both escape to the caller.  (`fun _ => none` models
the JSON codec on contents — here `"{"` — on which `json.load` raises.) -/
theorem C5_load_checkpoint_counterexample :
    load_checkpoint (fun _ => none) ReadOutcome.otherIOError =
      Except.error PyExn.osError ∧
    load_checkpoint (fun _ => none) (ReadOutcome.contents "\x7b") =
      Except.error PyExn.jsonDecodeError := ⟨rfl, rfl⟩

/-- **C5** (amended).  `load_checkpoint` returns the empty defaults exactly
when the file is missing; any other read failure, and malformed contents,
raise to the caller.  The `scrap_simple.get_existing_data` variant, whose
bare `except:` catches everything, returns its empty default on every
failure path and never raises. -/
theorem C5_load_checkpoint_amended {α : Type}
    (parseJson : String → Option Checkpoint)
    (pj2 : String → Option (MasterDb α)) (s : String) :
    load_checkpoint parseJson ReadOutcome.fileNotFound =
      Except.ok { processed_urls := [], countries_data := [] } ∧
    load_checkpoint parseJson ReadOutcome.otherIOError =
      Except.error PyExn.osError ∧
    (parseJson s = none →
      load_checkpoint parseJson (ReadOutcome.contents s) =
        Except.error PyExn.jsonDecodeError) ∧
    get_existing_data pj2 ReadOutcome.fileNotFound =
      { places_to_go := [] } ∧
    get_existing_data pj2 ReadOutcome.otherIOError =
      { places_to_go := [] } ∧
    (pj2 s = none →
      get_existing_data pj2 (ReadOutcome.contents s) =
        { places_to_go := [] }) := by
  refine ⟨rfl, rfl, ?_, rfl, rfl, ?_⟩
  · intro h
    simp only [load_checkpoint, h]
  · intro h
    simp only [get_existing_data, h]

/-- Witness for the amended C5 at concrete codec results. -/
theorem C5_load_checkpoint_amended_witness :
    load_checkpoint (fun _ => none) (ReadOutcome.contents "\x7b") =
      Except.error PyExn.jsonDecodeError ∧
    get_existing_data (fun (_ : String) => (none : Option (MasterDb Unit)))
        (ReadOutcome.contents "\x7b") = { places_to_go := [] } := by
  constructor
  · exact (C5_load_checkpoint_amended (fun _ => none)
      (fun (_ : String) => (none : Option (MasterDb Unit))) "\x7b").2.2.1 rfl
  · exact (C5_load_checkpoint_amended (fun _ => none)
      (fun (_ : String) => (none : Option (MasterDb Unit)))
        "\x7b").2.2.2.2.2 rfl

/-! ## Aggregator behaviour (C6) -/

/-- The grouping key the aggregator computes from a record. -/
def keyOf (rec : Dest) : LocationKey :=
  parse_url_parts rec.article_url

/-- "An entry with the same `(region, country)` pair": the match condition
of `aggregate_by_country`'s linear search. -/
def keyMatch (rec : Dest) (c : CountryEntry) : Prop :=
  c.region = (keyOf rec).region ∧ c.country = (keyOf rec).country

instance (rec : Dest) (c : CountryEntry) : Decidable (keyMatch rec c) := by
  unfold keyMatch
  infer_instance

/-- The fresh entry `aggregate_by_country` creates when no entry matches. -/
def newEntry (rec : Dest) : CountryEntry :=
  { region := (keyOf rec).region
    country := (keyOf rec).country
    destinations := [mkD rec] }

theorem aggregate_no_match {rec : Dest} {l : List CountryEntry}
    (h : ∀ c ∈ l, ¬ keyMatch rec c) :
    aggregate_by_country rec l = l ++ [newEntry rec] := by
  induction l with
  | nil => rfl
  | cons c rest ih =>
    have hc := h c (List.mem_cons_self c rest)
    simp only [aggregate_by_country]
    split_ifs with hm
    · exact absurd hm hc
    · rw [ih (fun c2 hc2 => h c2 (List.mem_cons_of_mem c hc2))]
      simp

theorem aggregate_first_match {rec : Dest} :
    ∀ (pre : List CountryEntry) (c : CountryEntry)
      (post : List CountryEntry), keyMatch rec c →
      (∀ c2 ∈ pre, ¬ keyMatch rec c2) →
      aggregate_by_country rec (pre ++ c :: post) =
        pre ++ { c with destinations := c.destinations ++ [mkD rec] } :: post := by
  intro pre
  induction pre with
  | nil =>
    intro c post hc _
    simp only [List.nil_append, aggregate_by_country]
    split_ifs with hm
    · rfl
    · exact absurd hc hm
  | cons p pre ih =>
    intro c post hc hpre
    have hp : ¬ keyMatch rec p := hpre p (List.mem_cons_self p pre)
    simp only [List.cons_append, aggregate_by_country]
    split_ifs with hm
    · exact absurd hm hp
    · show p :: aggregate_by_country rec (pre ++ c :: post) =
        p :: (pre ++
          { c with destinations := c.destinations ++ [mkD rec] } :: post)
      rw [ih c post hc (fun c2 hc2 => hpre c2 (List.mem_cons_of_mem p hc2))]

/-- **C6** (confirmed).  The aggregator computes the location key from the
record's `article_url`; when no entry matches the `(region, country)` pair
it appends a fresh single-destination entry at the end; when the first
matching entry is found it appends the record to that entry's destination
list, leaving everything else untouched; two articles with the same key
produce one entry holding both destinations in insertion order; a second
key produces a second, independent entry; and no de-duplication happens —
the same record added twice appears twice. -/
theorem C6_aggregator (rec : Dest) (l : List CountryEntry) :
    ((∀ c ∈ l, ¬ keyMatch rec c) →
      aggregate_by_country rec l = l ++ [newEntry rec]) ∧
    (∀ pre c post, l = pre ++ c :: post → keyMatch rec c →
      (∀ c2 ∈ pre, ¬ keyMatch rec c2) →
      aggregate_by_country rec l =
        pre ++ { c with destinations := c.destinations ++ [rec] } :: post) ∧
    (∀ rec2 : Dest, keyOf rec2 = keyOf rec →
      aggregate_by_country rec2 (aggregate_by_country rec []) =
        [{ region := (keyOf rec).region
           country := (keyOf rec).country
           destinations := [rec, rec2] }]) ∧
    (∀ rec2 : Dest, ¬ keyMatch rec2 (newEntry rec) →
      aggregate_by_country rec2 (aggregate_by_country rec []) =
        [newEntry rec, newEntry rec2]) ∧
    (aggregate_by_country rec (aggregate_by_country rec []) =
      [{ region := (keyOf rec).region
         country := (keyOf rec).country
         destinations := [rec, rec] }]) := by
  have hbase : aggregate_by_country rec [] = [newEntry rec] := rfl
  have hsame : ∀ rec2 : Dest, keyOf rec2 = keyOf rec →
      aggregate_by_country rec2 (aggregate_by_country rec []) =
        [{ region := (keyOf rec).region
           country := (keyOf rec).country
           destinations := [rec, rec2] }] := by
    intro rec2 hkey
    rw [hbase]
    have hm : keyMatch rec2 (newEntry rec) := by
      unfold keyMatch newEntry
      rw [hkey]
      exact ⟨rfl, rfl⟩
    have := @aggregate_first_match rec2 [] (newEntry rec) [] hm
      (by intro c2 hc2; cases hc2)
    rw [List.nil_append] at this
    rw [this]
    simp [newEntry, mkD_eq]
  refine ⟨?_, ?_, hsame, ?_, ?_⟩
  · exact aggregate_no_match
  · intro pre c post hl hc hpre
    rw [hl, aggregate_first_match pre c post hc hpre]
    simp [mkD_eq]
  · intro rec2 hnm
    rw [hbase]
    rw [aggregate_no_match (l := [newEntry rec])
      (by intro c2 hc2; rw [List.mem_singleton] at hc2; subst hc2; exact hnm)]
    rfl
  · exact hsame rec rfl

/-- A concrete Morocco article record. -/
def destA : Dest :=
  { place_name := "Marrakesh Solo Travel"
    article_title := "A"
    article_url := "https://www.united.com/en/us/hemispheres/places-to-go/africa/morocco/marrakesh-solo-travel.html"
    hero_image := none
    description := "" }

/-- A second record with the same `(region, country)` but another place. -/
def destB : Dest :=
  { place_name := "Fes"
    article_title := "B"
    article_url := "https://www.united.com/en/us/hemispheres/places-to-go/africa/morocco/fes.html"
    hero_image := some "https://img"
    description := "d" }

/-- Witness for C6: the two Morocco records end up in one entry with both
destinations in insertion order. -/
theorem C6_aggregator_witness :
    aggregate_by_country destB (aggregate_by_country destA []) =
      [{ region := "Places To Go"
         country := "Africa"
         destinations := [destA, destB] }] :=
  ((C6_aggregator destA []).2.2.1 destB (by decide)).trans (by decide)

/-! ## Title absence (C8) and description truncation (C9) -/

/-- The Marrakesh article URL used by the spec's scenarios. -/
def urlM : String :=
  "https://www.united.com/en/us/hemispheres/places-to-go/africa/morocco/marrakesh-solo-travel.html"

/-- A loaded page with no heading element anywhere (and nothing else). -/
def pageNoHeading : Page :=
  { loadOk := true, hasH1 := false, h1Text := "",
    cnt := fun _ => 0, src := fun _ => none, txt := fun _ => "" }

/-- A markup scan in which no pattern matched at all. -/
def scanNoTitle : HtmlScan :=
  { titleMatch := none, img1 := none, img2 := none,
    introMatch := none, longPMatch := none }

/-- **C8** (corrected, counterexample).  The claim says extraction still
produces a record (with empty title) when no heading yields a title.  In
`scraper.scrape_article` the `h1` selector wait times out on such a
document, the exception is caught, and the function returns `None`: no
record is produced at all. -/
theorem C8_title_absence_counterexample :
    scrape_article pageNoHeading urlM = none := rfl

/-- **C8** (amended).  Title absence is never fatal only in the
regex-based variants: `scrape_article_from_html` still produces a record
with `article_title = ""` when the `h1` pattern does not match, and
`scrap_simple`'s title selection falls back to the string `"N/A"` (not
`""`); in the browser-based `scraper.scrape_article` the absence of any
`h1` makes the selector wait fail and extraction yields `None`. -/
theorem C8_title_absence_amended (p : Page) (scan : HtmlScan)
    (lh h1t : Option String) (url : String) :
    (p.hasH1 = false → scrape_article p url = none) ∧
    (scan.titleMatch = none →
      scrape_article_from_html scan url ≠ none ∧
      ∀ r, scrape_article_from_html scan url = some r →
        r.article_title = "") ∧
    ((lh = none ∨ lh = some "") → h1t = none →
      scrap_simple_title lh h1t = "N/A") := by
  refine ⟨?_, ?_, ?_⟩
  · intro h
    unfold scrape_article
    rw [h]
    simp
  · intro h
    constructor
    · simp [scrape_article_from_html]
    · intro r hr
      simp only [scrape_article_from_html, h] at hr
      cases hr
      rfl
  · rintro (rfl | rfl) rfl <;> rfl

/-- Witness for the amended C8 at a concrete page, scan and inputs. -/
theorem C8_title_absence_witness :
    scrape_article pageNoHeading urlM = none ∧
    scrape_article_from_html scanNoTitle urlM ≠ none ∧
    scrap_simple_title none none = "N/A" :=
  ⟨(C8_title_absence_amended pageNoHeading scanNoTitle none none urlM).1 rfl,
   ((C8_title_absence_amended pageNoHeading scanNoTitle none none urlM).2.1
      rfl).1,
   (C8_title_absence_amended pageNoHeading scanNoTitle none none urlM).2.2
      (Or.inl rfl) rfl⟩

/-- A 501-character description text. -/
def longText : String := ⟨List.replicate 501 'a'⟩

/-- A page whose only content is a long `p.intro` paragraph. -/
def introPage (t : String) : Page :=
  { loadOk := true, hasH1 := true, h1Text := "T",
    cnt := fun sel => if sel = "p.intro" then 1 else 0,
    src := fun _ => none,
    txt := fun sel => if sel = "p.intro" then t else "" }

set_option maxRecDepth 4000 in
/-- **C9** (corrected, counterexample).  The claim says every successfully
extracted record's description is truncated to at most 500 characters
before the record is returned.  `scraper.scrape_article` applies no
truncation (`"description": description or ""`): a 501-character intro
paragraph comes back whole. -/
theorem C9_truncation_counterexample :
    scrape_article (introPage longText) urlM =
      some { place_name := "Morocco", article_title := "T",
             article_url := urlM, hero_image := none,
             description := longText } ∧
    500 < longText.length := by
  constructor
  · decide
  · decide

/-- **C9** (amended).  Only the webreader variant bounds the description:
every record `scrape_article_from_html` returns has
`description.length ≤ 500` (`description[:500]`), while
`scraper.scrape_article` returns the chosen fallback text at its full
stripped length, whatever that is. -/
theorem C9_truncation_amended (scan : HtmlScan) (url : String) (t : String) :
    (∀ r, scrape_article_from_html scan url = some r →
      r.description.length ≤ 500) ∧
    (50 < (⟨pyStripL t.data⟩ : String).length →
      scrape_article (introPage t) url =
        some { place_name := (parse_url_parts url).place
               article_title := "T"
               article_url := url
               hero_image := none
               description := ⟨pyStripL t.data⟩ }) := by
  constructor
  · intro r hr
    simp only [scrape_article_from_html] at hr
    cases hr
    show (if _ ≠ ([] : List Char) then _ else "").length ≤ 500
    split_ifs
    · exact List.length_take_le _ _
    · exact Nat.zero_le _
  · intro h
    have hcnt : (introPage t).cnt "p.intro" = 1 := rfl
    have htxt : (introPage t).txt "p.intro" = t := rfl
    have hdesc : descChain (introPage t) desc_selectors =
        some ⟨pyStripL t.data⟩ := by
      simp only [descChain, desc_selectors, hcnt, htxt]
      rw [if_pos (by norm_num), if_pos h]
    have hhero : heroChain (introPage t) hero_selectors = none := rfl
    unfold scrape_article
    rw [if_pos (show ((introPage t).loadOk && (introPage t).hasH1) = true
      from rfl), hdesc, hhero]
    rfl

set_option maxRecDepth 4000 in
/-- Witness for the amended C9: the 501-character intro survives untruncated
through `scraper.scrape_article`. -/
theorem C9_truncation_witness :
    scrape_article (introPage longText) urlM =
      some { place_name := "Morocco", article_title := "T",
             article_url := urlM, hero_image := none,
             description := longText } :=
  ((C9_truncation_amended scanNoTitle urlM longText).2 (by decide)).trans
    (by decide)

/-! ## Region-link classification (C7) -/

/-- The group captured by a successful webreader region match is exactly
one non-empty slash-free segment below the places-to-go root. -/
theorem tryWrRegion_shape {l g rest : List Char}
    (h : tryWrRegion l = some (g, rest)) :
    ∃ seg : List Char, seg ≠ [] ∧ (∀ x ∈ seg, x ≠ '/') ∧
      g = "/en/us/hemispheres/places-to-go/".data ++ seg ++
        "/index.html".data := by
  unfold tryWrRegion at h
  dsimp only at h
  split_ifs at h with h1 h2 h3
  injection h with h4
  injection h4 with h5 h6
  refine ⟨((l.drop wrHrefRoot.length).takeWhile (· != '/')), ?_, ?_, ?_⟩
  · intro hempty
    rw [← List.isEmpty_iff] at hempty
    exact h2 hempty
  · intro x hx
    have := takeWhile_mem x hx
    simpa using this
  · rw [← h5]

/-- Every group harvested by the webreader region pattern is exactly one
segment below the places-to-go root: the pattern hard-codes
`/en/us/hemispheres/places-to-go/[^/]+/index\.html`. -/
theorem findall_region_shape (fuel : Nat) :
    ∀ l g, g ∈ findallGo tryWrRegion fuel l →
      ∃ seg : List Char, seg ≠ [] ∧ (∀ x ∈ seg, x ≠ '/') ∧
        g = "/en/us/hemispheres/places-to-go/".data ++ seg ++
          "/index.html".data := by
  induction fuel with
  | zero => intro l g hg; simp [findallGo] at hg
  | succ n ih =>
    intro l g hg
    cases l with
    | nil => simp [findallGo] at hg
    | cons c cs =>
      simp only [findallGo] at hg
      cases h : tryWrRegion (c :: cs) with
      | none =>
        rw [h] at hg
        exact ih cs g hg
      | some pr =>
        obtain ⟨g0, rest⟩ := pr
        rw [h] at hg
        rcases List.mem_cons.mp hg with rfl | hg2
        · exact tryWrRegion_shape h
        · exact ih rest g hg2

/-- **C7** (corrected, counterexample).  The claim says the region-link
extractor accepts an href only at exactly one nesting level below the root
and that `/en/us/places-to-go/africa/index.html` is classified as a region
link.  `scraper.extract_region_links` only requires ≥ 6 slashes, so it also
accepts the deeper country-level index page, and it requires the literal
`/hemispheres/places-to-go/` segment, so the spec's example href (which
lacks `/hemispheres`, and has only 5 slashes) is rejected — by the
webreader variant too. -/
theorem C7_region_links_counterexample :
    extract_region_links
        [some "/en/us/hemispheres/places-to-go/africa/morocco/index.html"] =
      ["https://www.united.com/en/us/hemispheres/places-to-go/africa/morocco/index.html"] ∧
    extract_region_links [some "/en/us/places-to-go/africa/index.html"] = [] ∧
    extract_region_links_wr
      "<a href=\"/en/us/places-to-go/africa/index.html\">" = [] := by
  refine ⟨?_, ?_, ?_⟩ <;> decide

/-- **C7** (amended).  `scraper.extract_region_links` accepts an href iff it
is non-empty, contains `/hemispheres/places-to-go/`, ends in `/index.html`,
has at least six slashes, and its absolute form differs from the main index
URL — a test that the one-level region pages pass but deeper country/place
index pages pass as well; the collected links are exactly the absolute
forms of accepted hrefs; and only the webreader variant enforces "exactly
one nesting level below the root". -/
theorem C7_region_links_amended (href : String) (html : String) :
    (region_accept href = true ↔
      (href ≠ "" ∧
       (∃ pre post, href.data = pre ++ hplRoot ++ post) ∧
       (∃ r, href.data = r ++ "/index.html".data) ∧
       6 ≤ countCh '/' href.data ∧
       urljoin BASE_URL href ≠ MAIN_URL)) ∧
    (∀ (anchors : List (Option String)) (u : String),
      u ∈ extract_region_links anchors ↔
        ∃ s : String, some s ∈ anchors ∧ region_accept s = true ∧
          u = urljoin BASE_URL s) ∧
    region_accept "/en/us/hemispheres/places-to-go/africa/index.html"
      = true ∧
    region_accept
      "/en/us/hemispheres/places-to-go/africa/morocco/index.html" = true ∧
    (∀ u ∈ extract_region_links_wr html,
      ∃ seg : List Char, seg ≠ [] ∧ (∀ x ∈ seg, x ≠ '/') ∧
        u = ⟨"https://www.united.com/en/us/hemispheres/places-to-go/".data ++
          seg ++ "/index.html".data⟩) := by
  refine ⟨?_, ?_, by decide, by decide, ?_⟩
  · unfold region_accept
    simp only [Bool.and_eq_true, decide_eq_true_eq]
    rw [listHasSub_iff, listEndsWith_iff]
    tauto
  · intro anchors u
    rw [extract_region_links, mem_sortDedup, region_link_candidates,
      List.mem_filterMap]
    constructor
    · rintro ⟨h, hmem, heq⟩
      cases h with
      | none => cases heq
      | some s =>
        simp only at heq
        split_ifs at heq with hacc
        · injection heq with heq2
          exact ⟨s, hmem, hacc, heq2.symm⟩
    · rintro ⟨s, hmem, hacc, rfl⟩
      refine ⟨some s, hmem, ?_⟩
      simp only
      rw [if_pos hacc]
  · intro u hu
    rw [extract_region_links_wr, mem_sortDedup, List.mem_filter,
      List.mem_map] at hu
    obtain ⟨⟨g, hg, rfl⟩, _⟩ := hu
    obtain ⟨seg, hne, hns, rfl⟩ := findall_region_shape _ _ _ hg
    refine ⟨seg, hne, hns, ?_⟩
    have hstart : listStartsWith "http://".data
        (⟨"/en/us/hemispheres/places-to-go/".data ++ seg ++
          "/index.html".data⟩ : String).data = false := by
      simp [listStartsWith]
    unfold urljoin
    rw [hstart]
    have hstart2 : listStartsWith "https://".data
        ("/en/us/hemispheres/places-to-go/".data ++ seg ++
          "/index.html".data) = false := by
      simp [listStartsWith]
    have hstart3 : listStartsWith "//".data
        ("/en/us/hemispheres/places-to-go/".data ++ seg ++
          "/index.html".data) = false := by
      simp [listStartsWith]
    have hstart4 : listStartsWith "/".data
        ("/en/us/hemispheres/places-to-go/".data ++ seg ++
          "/index.html".data) = true := by
      simp [listStartsWith]
    simp only [hstart2, hstart3, hstart4, Bool.false_or, Bool.or_false,
      if_false, if_true]
    apply String.ext
    simp [BASE_URL]

/-- Witness for the amended C7: the genuine one-level region href is
accepted and its absolute URL is collected. -/
theorem C7_region_links_witness :
    region_accept "/en/us/hemispheres/places-to-go/africa/index.html"
      = true ∧
    "https://www.united.com/en/us/hemispheres/places-to-go/africa/index.html" ∈
      extract_region_links
        [some "/en/us/hemispheres/places-to-go/africa/index.html"] := by
  constructor
  · exact (C7_region_links_amended "" "").2.2.1
  · exact ((C7_region_links_amended "" "").2.1
      [some "/en/us/hemispheres/places-to-go/africa/index.html"] _).mpr
      ⟨"/en/us/hemispheres/places-to-go/africa/index.html",
        by decide, by decide, by decide⟩

/-! ## Sorted, duplicate-free discovery (C10) -/

/-- **C10** (confirmed).  Both discovery functions return the strictly
ascending (hence duplicate-free) enumeration of the distinct eligible
absolute URLs, independent of anchor order and multiplicity — and so does
the webreader variant; consequently the per-region scrape worklist (the
sorted list minus the processed URLs) is itself in ascending URL order, so
articles are scraped in lexicographic URL order, not page order. -/
theorem C10_sorted_discovery (anchors : List (Option String)) (html : String)
    (p : String → Bool) :
    (extract_article_links anchors).Sorted (· < ·) ∧
    (extract_article_links anchors).Nodup ∧
    (∀ u, u ∈ extract_article_links anchors ↔
      u ∈ article_link_candidates anchors) ∧
    (∀ anchors2 : List (Option String),
      (∀ u, u ∈ article_link_candidates anchors ↔
        u ∈ article_link_candidates anchors2) →
      extract_article_links anchors = extract_article_links anchors2) ∧
    (extract_region_links anchors).Sorted (· < ·) ∧
    (extract_region_links anchors).Nodup ∧
    (extract_article_links_wr html).Sorted (· < ·) ∧
    (extract_article_links_wr html).Nodup ∧
    ((extract_article_links anchors).filter p).Sorted (· < ·) ∧
    (∀ (env : RunEnv) (st : RunState) (r : String),
      ∃ t, (processRegion env st r).calls = st.calls ++ t ∧
        t.Sorted (· < ·)) := by
  refine ⟨sorted_sortDedup _, nodup_of_sorted_lt (sorted_sortDedup _),
    fun u => mem_sortDedup u _, ?_, sorted_sortDedup _,
    nodup_of_sorted_lt (sorted_sortDedup _), sorted_sortDedup _,
    nodup_of_sorted_lt (sorted_sortDedup _), ?_, ?_⟩
  · intro anchors2 hm
    refine sorted_lt_ext (sorted_sortDedup _) (sorted_sortDedup _) ?_
    intro x
    show x ∈ sortDedup (article_link_candidates anchors) ↔
      x ∈ sortDedup (article_link_candidates anchors2)
    rw [mem_sortDedup, mem_sortDedup]
    exact hm x
  · exact (sorted_sortDedup _).filter p
  · intro env st r
    refine ⟨_, processRegion_calls env st r, ?_⟩
    split_ifs
    · exact (sorted_sortDedup _).filter _
    · simp

/-- Witness for C10: anchor order and duplication do not change the
discovered list. -/
theorem C10_sorted_discovery_witness :
    extract_article_links
        [some "/en/us/hemispheres/places-to-go/africa/morocco/marrakesh-solo-travel.html",
         some "/en/us/hemispheres/places-to-go/africa/morocco/fes.html"] =
      extract_article_links
        [some "/en/us/hemispheres/places-to-go/africa/morocco/fes.html",
         some "/en/us/hemispheres/places-to-go/africa/morocco/marrakesh-solo-travel.html",
         some "/en/us/hemispheres/places-to-go/africa/morocco/fes.html"] := by
  refine (C10_sorted_discovery _ "" (fun _ => true)).2.2.2.1 _ ?_
  intro u
  rw [show article_link_candidates
      [some "/en/us/hemispheres/places-to-go/africa/morocco/marrakesh-solo-travel.html",
       some "/en/us/hemispheres/places-to-go/africa/morocco/fes.html"] =
      ["https://www.united.com/en/us/hemispheres/places-to-go/africa/morocco/marrakesh-solo-travel.html",
       "https://www.united.com/en/us/hemispheres/places-to-go/africa/morocco/fes.html"]
    from by decide]
  rw [show article_link_candidates
      [some "/en/us/hemispheres/places-to-go/africa/morocco/fes.html",
       some "/en/us/hemispheres/places-to-go/africa/morocco/marrakesh-solo-travel.html",
       some "/en/us/hemispheres/places-to-go/africa/morocco/fes.html"] =
      ["https://www.united.com/en/us/hemispheres/places-to-go/africa/morocco/fes.html",
       "https://www.united.com/en/us/hemispheres/places-to-go/africa/morocco/marrakesh-solo-travel.html",
       "https://www.united.com/en/us/hemispheres/places-to-go/africa/morocco/fes.html"]
    from by decide]
  simp only [List.mem_cons, List.not_mem_nil, or_false]
  tauto

end Scrape
